import Mathlib

/-!
# Verification of the observational-memory compression pipeline

This file gives a shallow embedding, in Lean 4, of the core of the
`opencode-observational-memory` plugin: the structured observation data
model, the observation merge engine (`mergeObservationGroups` in
`src/observer.ts`), the degenerate-output detector
(`detectDegenerateRepetition`), the compression escalation controller
(`runReflector` in `src/agents.ts` together with `buildReflectorPrompt`
in `src/reflector.ts`), and the per-turn apply/launch logic of the
`experimental.chat.messages.transform` hook in `src/index.ts`
(`transformTurn` below), including the background-job completion path of
`startBackgroundObserver`.

Conventions of the embedding:
* JavaScript strings are modelled as Lean `String`s (and, for the
  character-window detector, as `List Char`); character counts are
  code-point counts.
* JavaScript numbers holding message indices are modelled as `Int`
  (`lastObservedMessageIndex` starts at `-1`); token counts as `Nat`.
* The floating-point comparison `duplicates / total > 0.4` is modelled
  by the exact integer inequality `5 * duplicates > 2 * total`, which
  agrees with IEEE double arithmetic for the small integer operand
  ranges produced by the sampler (at most a few hundred).
* The external LLM capability is an explicit oracle parameter
  (a function from the prompt sent to the optional structured result).
* Wall-clock times (`Date.now()`) are event parameters.
* Prompt/instruction wording is out of scope of the verified core; long
  literal prompt texts are abbreviated to short distinct constants.
-/

namespace ObsMemory

/-! ## Data model (`src/types.ts`, structured format) -/

/-- Priority of an observation entry: `"high" | "medium" | "low"`. -/
inductive Priority where
  | high
  | medium
  | low
deriving DecidableEq, Repr

/-- A sub-observation (`children` item): `{ text: string }`. -/
structure ObservationChild where
  text : String
deriving DecidableEq, Repr

/-- One observation entry (`ObservationEntry` in `src/types.ts`). -/
structure ObservationEntry where
  priority : Priority
  time : String
  text : String
  children : Option (List ObservationChild) := none
deriving DecidableEq, Repr

/-- All observations attributed to one date label (`ObservationGroup`). -/
structure ObservationGroup where
  date : String
  entries : List ObservationEntry
deriving DecidableEq, Repr

/-! ## Observation merge engine (`mergeObservationGroups`, src/observer.ts)

The source builds a `Map<string, ObservationEntry[]>` keyed by date, by
iterating first over `existing` and then over `incoming`, each time
setting `byDate.set(g.date, [...(byDate.get(g.date) ?? []), ...g.entries])`.
We model the map as a total function `String → List ObservationEntry`
defaulting to `[]` (only `get`/`set` are used on it). -/

/-- The date-keyed entry map. -/
def DateMap : Type := String → List ObservationEntry

/-- `byDate.set(g.date, [...(byDate.get(g.date) ?? []), ...g.entries])`. -/
def addGroup (m : DateMap) (g : ObservationGroup) : DateMap :=
  fun d => if d = g.date then m g.date ++ g.entries else m d

/-- The two build loops of `mergeObservationGroups` (existing then
incoming), as a single fold over the concatenated list. -/
def buildByDate (gs : List ObservationGroup) : DateMap :=
  gs.foldl addGroup (fun _ => [])

/-- The rebuild loop of `mergeObservationGroups`: walk
`[...existing, ...incoming]`, skip dates already seen, and emit
`{ date: g.date, entries: byDate.get(g.date) ?? [] }` for each first
occurrence. `seen` is the `seenDates` set. -/
def mergeLoop (byDate : DateMap) : List ObservationGroup → List String → List ObservationGroup
  | [], _ => []
  | g :: rest, seen =>
    if g.date ∈ seen then mergeLoop byDate rest seen
    else { date := g.date, entries := byDate g.date } :: mergeLoop byDate rest (g.date :: seen)

/-- `mergeObservationGroups` (src/observer.ts): merges two observation
arrays, combining entries for the same date group. -/
def mergeObservationGroups (existing incoming : List ObservationGroup) : List ObservationGroup :=
  mergeLoop (buildByDate (existing ++ incoming)) (existing ++ incoming) []

/-! ### Characterisation of the merge -/

/-- All entries carried by groups labelled `d`, in scan order. -/
def entriesFor (gs : List ObservationGroup) (d : String) : List ObservationEntry :=
  match gs with
  | [] => []
  | g :: rest => (if g.date = d then g.entries else []) ++ entriesFor rest d

/-- First-occurrence deduplication with an explicit seen accumulator;
mirrors the `seenDates` loop on the date labels alone. -/
def dedupAux : List String → List String → List String
  | [], _ => []
  | d :: rest, seen =>
    if d ∈ seen then dedupAux rest seen
    else d :: dedupAux rest (d :: seen)

/-- The seen set after the dedup loop has consumed `l` starting from `seen`. -/
def seenAfter : List String → List String → List String
  | [], seen => seen
  | d :: rest, seen =>
    if d ∈ seen then seenAfter rest seen
    else seenAfter rest (d :: seen)

theorem entriesFor_append (gs gs' : List ObservationGroup) (d : String) :
    entriesFor (gs ++ gs') d = entriesFor gs d ++ entriesFor gs' d := by
  induction gs with
  | nil => simp [entriesFor]
  | cons g rest ih => simp [entriesFor, ih]

theorem entriesFor_eq_nil_of_not_mem (gs : List ObservationGroup) (d : String)
    (h : d ∉ gs.map (·.date)) : entriesFor gs d = [] := by
  induction gs with
  | nil => rfl
  | cons g rest ih =>
    simp only [List.map_cons, List.mem_cons, not_or] at h
    have hgd : ¬g.date = d := fun hh => h.1 hh.symm
    simp [entriesFor, hgd, ih h.2]

theorem buildByDate_aux (gs : List ObservationGroup) (m : DateMap) (d : String) :
    (gs.foldl addGroup m) d = m d ++ entriesFor gs d := by
  induction gs generalizing m with
  | nil => simp [entriesFor]
  | cons g rest ih =>
    simp only [List.foldl_cons, entriesFor, ih]
    by_cases h : g.date = d
    · subst h; simp [addGroup]
    · have h' : ¬d = g.date := fun hh => h hh.symm
      simp [addGroup, h', h]

theorem buildByDate_eq (gs : List ObservationGroup) (d : String) :
    buildByDate gs d = entriesFor gs d := by
  simpa using buildByDate_aux gs (fun _ => []) d

theorem mergeLoop_eq (m : DateMap) (gs : List ObservationGroup) (seen : List String) :
    mergeLoop m gs seen
      = (dedupAux (gs.map (·.date)) seen).map (fun d => { date := d, entries := m d }) := by
  induction gs generalizing seen with
  | nil => rfl
  | cons g rest ih =>
    simp only [mergeLoop, List.map_cons, dedupAux]
    by_cases h : g.date ∈ seen
    · simp [h, ih]
    · simp [h, ih]

/-- Normal form of the merge: the output is the first-occurrence
deduplication of the scanned date labels, each paired with every entry
carried for that date across both inputs, in scan order. -/
theorem mergeObservationGroups_eq (existing incoming : List ObservationGroup) :
    mergeObservationGroups existing incoming
      = (dedupAux ((existing ++ incoming).map (·.date)) []).map
          (fun d => { date := d, entries := entriesFor (existing ++ incoming) d }) := by
  rw [mergeObservationGroups, mergeLoop_eq]
  exact List.map_congr_left (fun d _ => by rw [buildByDate_eq])

/-! ### dedup lemmas -/

theorem mem_dedupAux {x : String} (l seen : List String) :
    x ∈ dedupAux l seen ↔ x ∈ l ∧ x ∉ seen := by
  induction l generalizing seen with
  | nil => simp [dedupAux]
  | cons d rest ih =>
    simp only [dedupAux]
    by_cases h : d ∈ seen
    · rw [if_pos h, ih]
      simp only [List.mem_cons]
      constructor
      · rintro ⟨hx, hs⟩; exact ⟨Or.inr hx, hs⟩
      · rintro ⟨hx | hx, hs⟩
        · exact absurd (hx ▸ h) hs
        · exact ⟨hx, hs⟩
    · rw [if_neg h]
      simp only [List.mem_cons, ih, not_or]
      constructor
      · rintro (rfl | ⟨hx, hne, hs⟩)
        · exact ⟨Or.inl rfl, h⟩
        · exact ⟨Or.inr hx, hs⟩
      · rintro ⟨hx | hx, hs⟩
        · exact Or.inl hx
        · by_cases hxd : x = d
          · exact Or.inl hxd
          · exact Or.inr ⟨hx, hxd, hs⟩

theorem mem_seenAfter {x : String} (l seen : List String) :
    x ∈ seenAfter l seen ↔ x ∈ l ∨ x ∈ seen := by
  induction l generalizing seen with
  | nil => simp [seenAfter]
  | cons d rest ih =>
    simp only [seenAfter, List.mem_cons]
    by_cases h : d ∈ seen
    · rw [if_pos h, ih]
      constructor
      · rintro (hx | hs)
        · exact Or.inl (Or.inr hx)
        · exact Or.inr hs
      · rintro ((rfl | hx) | hs)
        · exact Or.inr h
        · exact Or.inl hx
        · exact Or.inr hs
    · rw [if_neg h, ih]
      simp only [List.mem_cons]
      constructor
      · rintro (hx | rfl | hs)
        · exact Or.inl (Or.inr hx)
        · exact Or.inl (Or.inl rfl)
        · exact Or.inr hs
      · rintro ((rfl | hx) | hs)
        · exact Or.inr (Or.inl rfl)
        · exact Or.inl hx
        · exact Or.inr (Or.inr hs)

theorem dedupAux_congr (l : List String) {s₁ s₂ : List String}
    (h : ∀ x, x ∈ s₁ ↔ x ∈ s₂) : dedupAux l s₁ = dedupAux l s₂ := by
  induction l generalizing s₁ s₂ with
  | nil => rfl
  | cons d rest ih =>
    simp only [dedupAux]
    by_cases hd : d ∈ s₁
    · rw [if_pos hd, if_pos ((h d).mp hd), ih h]
    · rw [if_neg hd, if_neg (fun hh => hd ((h d).mpr hh))]
      congr 1
      exact ih (fun x => by simp only [List.mem_cons]; rw [h x])

theorem dedupAux_append (X Y seen : List String) :
    dedupAux (X ++ Y) seen = dedupAux X seen ++ dedupAux Y (seenAfter X seen) := by
  induction X generalizing seen with
  | nil => simp [dedupAux, seenAfter]
  | cons d rest ih =>
    simp only [List.cons_append, dedupAux, seenAfter]
    by_cases h : d ∈ seen
    · simp [h, ih]
    · simp [h, ih]

theorem dedupAux_dedupAux (W : List String) {t s : List String}
    (h : ∀ x, x ∈ t → x ∈ s) : dedupAux (dedupAux W t) s = dedupAux W s := by
  induction W generalizing t s with
  | nil => rfl
  | cons w rest ih =>
    simp only [dedupAux]
    by_cases hwt : w ∈ t
    · rw [if_pos hwt, if_pos (h w hwt), ih h]
    · rw [if_neg hwt]
      simp only [dedupAux]
      by_cases hws : w ∈ s
      · rw [if_pos hws, if_pos hws]
        refine ih (fun x hx => ?_)
        rcases List.mem_cons.mp hx with rfl | h2
        · exact hws
        · exact h x h2
      · rw [if_neg hws, if_neg hws]
        congr 1
        refine ih (fun x hx => ?_)
        rcases List.mem_cons.mp hx with rfl | h2
        · exact List.mem_cons_self _ _
        · exact List.mem_cons_of_mem _ (h x h2)

theorem nodup_dedupAux (l seen : List String) : (dedupAux l seen).Nodup := by
  induction l generalizing seen with
  | nil => exact List.nodup_nil
  | cons d rest ih =>
    simp only [dedupAux]
    by_cases h : d ∈ seen
    · simp [h, ih]
    · rw [if_neg h]
      refine List.nodup_cons.mpr ⟨?_, ih _⟩
      intro hmem
      exact ((mem_dedupAux rest (d :: seen)).mp hmem).2 (List.mem_cons_self _ _)

theorem entriesFor_map_nodup (ds : List String) (f : String → List ObservationEntry) (d : String)
    (h : ds.Nodup) :
    entriesFor (ds.map (fun d' => { date := d', entries := f d' })) d
      = if d ∈ ds then f d else [] := by
  induction ds with
  | nil => simp [entriesFor]
  | cons d₀ rest ih =>
    rcases List.nodup_cons.mp h with ⟨hnot, hrest⟩
    simp only [List.map_cons, entriesFor]
    by_cases hd : d₀ = d
    · subst hd
      rw [if_pos rfl, if_pos (List.mem_cons_self _ _), ih hrest, if_neg hnot]
      simp
    · rw [if_neg hd, ih hrest]
      simp only [List.nil_append]
      by_cases hdr : d ∈ rest
      · rw [if_pos hdr, if_pos (List.mem_cons_of_mem _ hdr)]
      · have hnc : d ∉ d₀ :: rest := by
          simp only [List.mem_cons, not_or]
          exact ⟨fun hh => hd hh.symm, hdr⟩
        rw [if_neg hdr, if_neg hnc]

theorem map_date_mk (f : String → List ObservationEntry) (ds : List String) :
    (ds.map (fun d => ({ date := d, entries := f d } : ObservationGroup))).map (·.date) = ds := by
  induction ds with
  | nil => rfl
  | cons d rest ih => simp [ih]

theorem mergeObservationGroups_map_date (A B : List ObservationGroup) :
    (mergeObservationGroups A B).map (·.date) = dedupAux ((A ++ B).map (·.date)) [] := by
  rw [mergeObservationGroups_eq, map_date_mk]

theorem entriesFor_mergeObservationGroups (A B : List ObservationGroup) (d : String) :
    entriesFor (mergeObservationGroups A B) d = entriesFor (A ++ B) d := by
  rw [mergeObservationGroups_eq, entriesFor_map_nodup _ _ _ (nodup_dedupAux _ _)]
  by_cases h : d ∈ (A ++ B).map (·.date)
  · rw [if_pos ((mem_dedupAux _ _).mpr ⟨h, List.not_mem_nil d⟩)]
  · rw [if_neg (fun hc => h ((mem_dedupAux _ _).mp hc).1),
      entriesFor_eq_nil_of_not_mem _ _ h]

theorem mem_mergeObservationGroups_entries (A B : List ObservationGroup) (g : ObservationGroup)
    (hg : g ∈ mergeObservationGroups A B) : g.entries = entriesFor (A ++ B) g.date := by
  rw [mergeObservationGroups_eq] at hg
  obtain ⟨d, _, rfl⟩ := List.mem_map.mp hg
  rfl

theorem seenAfter_dedupAux_congr (X Y : List String) :
    dedupAux Y (seenAfter (dedupAux X []) []) = dedupAux Y (seenAfter X []) := by
  refine dedupAux_congr _ (fun x => ?_)
  rw [mem_seenAfter, mem_seenAfter, mem_dedupAux]
  simp

theorem dedupAux_dedup_left (X Y : List String) :
    dedupAux (dedupAux X [] ++ Y) [] = dedupAux (X ++ Y) [] := by
  rw [dedupAux_append, dedupAux_dedupAux X (fun x hx => hx),
    seenAfter_dedupAux_congr, ← dedupAux_append]

theorem dedupAux_dedup_right (X Y : List String) :
    dedupAux (X ++ dedupAux Y []) [] = dedupAux (X ++ Y) [] := by
  rw [dedupAux_append, dedupAux_dedupAux Y (fun x hx => absurd hx (List.not_mem_nil x)),
    ← dedupAux_append]

/-! ### Claim theorems about the merge engine -/

/-- Concrete entries for the "Mar 1, 2026" merge scenario. -/
def e4a : ObservationEntry := { priority := .high, time := "09:00", text := "existing fact one" }

def e4b : ObservationEntry := { priority := .medium, time := "09:30", text := "existing fact two" }

def e4c : ObservationEntry := { priority := .high, time := "10:00", text := "incoming fact" }

/-- C4: `mergeObservationGroups` groups by date-label equality; the output
date labels are those of `existing` then `incoming`, deduplicated keeping
the first occurrence (so dates only in `incoming` come after all `existing`
dates); for every output group, its entries are exactly all of
`existing`'s entries for that date followed by all of `incoming`'s, in
scan order, with nothing dropped, reordered within a date, or
deduplicated by content. In particular, merging a 2-entry existing group
and a 1-entry incoming group with the same date label "Mar 1, 2026"
yields exactly one group for that date with 3 entries in
existing-then-incoming order. -/
theorem mergeObservationGroups_spec :
    (∀ existing incoming : List ObservationGroup,
       (mergeObservationGroups existing incoming).map (·.date)
         = dedupAux (existing.map (·.date) ++ incoming.map (·.date)) [] ∧
       ∀ g ∈ mergeObservationGroups existing incoming,
         g.entries = entriesFor existing g.date ++ entriesFor incoming g.date) ∧
    mergeObservationGroups
        [{ date := "Mar 1, 2026", entries := [e4a, e4b] }]
        [{ date := "Mar 1, 2026", entries := [e4c] }]
      = [{ date := "Mar 1, 2026", entries := [e4a, e4b, e4c] }] := by
  constructor
  · intro existing incoming
    constructor
    · rw [mergeObservationGroups_map_date, List.map_append]
    · intro g hg
      rw [mem_mergeObservationGroups_entries _ _ _ hg, entriesFor_append]
  · decide

/-- Witness for C4: the scenario group of the merge satisfies the
entries decomposition at a concrete input. -/
theorem mergeObservationGroups_spec_witness :
    ({ date := "Mar 1, 2026", entries := [e4a, e4b, e4c] } : ObservationGroup).entries
      = entriesFor [{ date := "Mar 1, 2026", entries := [e4a, e4b] }] "Mar 1, 2026"
        ++ entriesFor [{ date := "Mar 1, 2026", entries := [e4c] }] "Mar 1, 2026" :=
  (mergeObservationGroups_spec.1 _ _).2 _ (by decide)

/-- C5: the observation merge is associative: for all observation-group
lists `A`, `B`, `C`, `merge (merge A B) C = merge A (merge B C)`,
results compared structurally (date then entries). -/
theorem mergeObservationGroups_assoc (A B C : List ObservationGroup) :
    mergeObservationGroups (mergeObservationGroups A B) C
      = mergeObservationGroups A (mergeObservationGroups B C) := by
  rw [mergeObservationGroups_eq (mergeObservationGroups A B) C,
      mergeObservationGroups_eq A (mergeObservationGroups B C)]
  have hdates : dedupAux ((mergeObservationGroups A B ++ C).map (·.date)) []
      = dedupAux ((A ++ mergeObservationGroups B C).map (·.date)) [] := by
    rw [List.map_append, List.map_append, mergeObservationGroups_map_date,
      mergeObservationGroups_map_date, dedupAux_dedup_left, dedupAux_dedup_right,
      List.map_append, List.map_append, List.append_assoc]
  rw [hdates]
  refine List.map_congr_left (fun d _ => ?_)
  have hentries : entriesFor (mergeObservationGroups A B ++ C) d
      = entriesFor (A ++ mergeObservationGroups B C) d := by
    rw [entriesFor_append, entriesFor_append, entriesFor_mergeObservationGroups,
      entriesFor_mergeObservationGroups, entriesFor_append, entriesFor_append,
      List.append_assoc]
  rw [hentries]

/-- C10: the merge output has pairwise-distinct date labels, and even
when one input list itself repeats a date label, the output coalesces
all groups with that label into a single group whose entries are the
concatenation, in scan order over `existing ++ incoming`, of every input
group with that label. -/
theorem mergeObservationGroups_nodup_dates :
    ∀ existing incoming : List ObservationGroup,
      ((mergeObservationGroups existing incoming).map (·.date)).Nodup ∧
      ∀ g ∈ mergeObservationGroups existing incoming,
        g.entries = entriesFor (existing ++ incoming) g.date := by
  intro existing incoming
  constructor
  · rw [mergeObservationGroups_map_date]
    exact nodup_dedupAux _ _
  · exact fun g hg => mem_mergeObservationGroups_entries _ _ _ hg

/-- Witness for C10: an existing list that itself repeats a date label is
coalesced into one group carrying all entries in scan order. -/
theorem mergeObservationGroups_nodup_dates_witness :
    ({ date := "Mar 1, 2026", entries := [e4a, e4b, e4c] } : ObservationGroup).entries
      = entriesFor
          ([{ date := "Mar 1, 2026", entries := [e4a] },
            { date := "Mar 1, 2026", entries := [e4b] }]
            ++ [{ date := "Mar 1, 2026", entries := [e4c] }]) "Mar 1, 2026" :=
  (mergeObservationGroups_nodup_dates
      [{ date := "Mar 1, 2026", entries := [e4a] },
       { date := "Mar 1, 2026", entries := [e4b] }]
      [{ date := "Mar 1, 2026", entries := [e4c] }]).2 _ (by decide)

/-! ## Degenerate output detector (`detectDegenerateRepetition`, src/observer.ts)

The source works on a JavaScript string; we model the text as a
`List Char`. The imperative pieces are translated as follows:
* `text.length` → `strLen` (tail-recursive counter, equal to `List.length`);
* `text.split("\n")` → `splitOnNewline`;
* the sampling loop `for (let i = 0; i + windowSize <= text.length; i += step)`
  → the offset list `sampleOffsets` (all multiples of `step` at which a
  full window fits) folded with `dupStep`;
* the `Map<string, number>` of seen windows → an association list with
  `mapGet`/`mapSet`;
* the float comparison `duplicates / total > 0.4` → `5 * duplicates > 2 * total`
  (exact for the small integer counts involved);
* the final line loop `for (const line of text.split("\n")) if (line.length > 50_000) return true`
  → `linesExceed text 50000`. -/

/-- Tail-recursive character counter (`text.length`). -/
def strLenAux : Nat → List Char → Nat
  | acc, [] => acc
  | acc, _ :: rest => strLenAux (acc + 1) rest

def strLen (cs : List Char) : Nat := strLenAux 0 cs

/-- `text.split("\n")`, with the current (reversed) line as accumulator. -/
def splitOnNewlineAux (cur : List Char) : List Char → List (List Char)
  | [] => [cur.reverse]
  | c :: rest =>
    if c = '\n' then cur.reverse :: splitOnNewlineAux [] rest
    else splitOnNewlineAux (c :: cur) rest

def splitOnNewline (cs : List Char) : List (List Char) := splitOnNewlineAux [] cs

def WINDOW_SIZE : Nat := 200

/-- `text.slice(i, i + windowSize)`. -/
def windowAt (text : List Char) (i : Nat) : List Char := (text.drop i).take WINDOW_SIZE

/-- The sampled window start offsets `0, step, 2*step, …` with
`i + windowSize ≤ len`; for `step ≥ 1` these are exactly the multiples
`k * step` with `k ≤ (len - windowSize) / step`. -/
def sampleOffsets (len step : Nat) : List Nat :=
  if WINDOW_SIZE ≤ len then (List.range ((len - WINDOW_SIZE) / step + 1)).map (· * step) else []

/-- The loop state: the `seen` map and the `duplicates`/`total` counters. -/
structure DupStats where
  seen : List (List Char × Nat)
  duplicates : Nat
  total : Nat

/-- `seen.get(w)`. -/
def mapGet (m : List (List Char × Nat)) (k : List Char) : Option Nat :=
  match m with
  | [] => none
  | (k', v) :: rest => if k' = k then some v else mapGet rest k

/-- `seen.set(w, count)`. -/
def mapSet (m : List (List Char × Nat)) (k : List Char) (v : Nat) : List (List Char × Nat) :=
  match m with
  | [] => [(k, v)]
  | (k', v') :: rest => if k' = k then (k, v) :: rest else (k', v') :: mapSet rest k v

/-- One iteration of the sampling loop. -/
def dupStep (text : List Char) (st : DupStats) (i : Nat) : DupStats :=
  let w := windowAt text i
  let count := (mapGet st.seen w).getD 0 + 1
  { seen := mapSet st.seen w count
    duplicates := if count > 1 then st.duplicates + 1 else st.duplicates
    total := st.total + 1 }

/-- The sampling loop run over the whole text. -/
def dupStats (text : List Char) : DupStats :=
  (sampleOffsets (strLen text) (max 1 (strLen text / 50))).foldl (dupStep text) ⟨[], 0, 0⟩

/-- The final line loop: some line is strictly longer than `limit`. -/
def linesExceed (text : List Char) (limit : Nat) : Bool :=
  (splitOnNewline text).any (fun l => decide (limit < strLen l))

/-- `detectDegenerateRepetition` (src/observer.ts): texts under 2,000
characters are never degenerate; otherwise flag if more than 40% of the
sampled 200-char windows (when at least 6 were sampled) are duplicates,
or if any single line is longer than 50,000 characters. -/
def detectDegenerateRepetition (text : List Char) : Bool :=
  if strLen text < 2000 then false
  else if (dupStats text).total > 5 ∧ 5 * (dupStats text).duplicates > 2 * (dupStats text).total then
    true
  else linesExceed text 50000

/-! ### Facts about the detector -/

theorem strLenAux_eq (acc : Nat) (cs : List Char) : strLenAux acc cs = acc + cs.length := by
  induction cs generalizing acc with
  | nil => simp [strLenAux]
  | cons c rest ih => simp [strLenAux, ih]; omega

theorem strLen_eq (cs : List Char) : strLen cs = cs.length := by
  simp [strLen, strLenAux_eq]

theorem splitOnNewlineAux_no_newline (cs : List Char) (cur : List Char)
    (h : ∀ c ∈ cs, c ≠ '\n') : splitOnNewlineAux cur cs = [cur.reverse ++ cs] := by
  induction cs generalizing cur with
  | nil => simp [splitOnNewlineAux]
  | cons c rest ih =>
    have hc : c ≠ '\n' := h c (List.mem_cons_self _ _)
    rw [splitOnNewlineAux, if_neg hc, ih _ (fun c' hc' => h c' (List.mem_cons_of_mem _ hc'))]
    simp

theorem splitOnNewline_no_newline (cs : List Char) (h : ∀ c ∈ cs, c ≠ '\n') :
    splitOnNewline cs = [cs] := by
  rw [splitOnNewline, splitOnNewlineAux_no_newline cs [] h]
  simp

theorem splitOnNewlineAux_length_le (cs : List Char) (cur : List Char) (l : List Char)
    (hl : l ∈ splitOnNewlineAux cur cs) : l.length ≤ cur.length + cs.length := by
  induction cs generalizing cur with
  | nil =>
    simp only [splitOnNewlineAux, List.mem_singleton] at hl
    simp [hl]
  | cons c rest ih =>
    rw [splitOnNewlineAux] at hl
    by_cases hc : c = '\n'
    · rw [if_pos hc] at hl
      rcases List.mem_cons.mp hl with rfl | hmem
      · simp only [List.length_reverse, List.length_cons]
        omega
      · have := ih [] hmem
        simp only [List.length_nil, List.length_cons] at this ⊢
        omega
    · rw [if_neg hc] at hl
      have := ih (c :: cur) hl
      simp only [List.length_cons] at this ⊢
      omega

theorem mapGet_mapSet_other (m : List (List Char × Nat)) (k k' : List Char) (v : Nat)
    (h : ¬k' = k) : mapGet (mapSet m k v) k' = mapGet m k' := by
  have hkk' : ¬k = k' := fun hh => h hh.symm
  induction m with
  | nil =>
    simp only [mapSet, mapGet]
    rw [if_neg hkk']
  | cons p rest ih =>
    obtain ⟨k₀, v₀⟩ := p
    rw [mapSet]
    by_cases h₀ : k₀ = k
    · subst h₀
      rw [if_pos rfl]
      simp only [mapGet]
      rw [if_neg hkk', if_neg hkk']
    · rw [if_neg h₀]
      simp only [mapGet]
      by_cases h₁ : k₀ = k'
      · rw [if_pos h₁, if_pos h₁]
      · rw [if_neg h₁, if_neg h₁, ih]

/-- Folding the duplicate counter over offsets whose windows are fresh
and pairwise distinct counts no duplicates. -/
theorem dupfree_fold (text : List Char) (offsets : List Nat) (st : DupStats)
    (hfresh : ∀ i ∈ offsets, mapGet st.seen (windowAt text i) = none)
    (hdist : offsets.Pairwise (fun i j => windowAt text i ≠ windowAt text j)) :
    (offsets.foldl (dupStep text) st).duplicates = st.duplicates ∧
    (offsets.foldl (dupStep text) st).total = st.total + offsets.length := by
  induction offsets generalizing st with
  | nil => simp
  | cons i rest ih =>
    rcases List.pairwise_cons.mp hdist with ⟨hi, hrest⟩
    have hfi := hfresh i (List.mem_cons_self _ _)
    have hstep : dupStep text st i
        = { seen := mapSet st.seen (windowAt text i) 1
            duplicates := st.duplicates, total := st.total + 1 } := by
      simp [dupStep, hfi]
    rw [List.foldl_cons, hstep]
    have hfresh' : ∀ j ∈ rest,
        mapGet (mapSet st.seen (windowAt text i) 1) (windowAt text j) = none := by
      intro j hj
      rw [mapGet_mapSet_other _ _ _ _ (fun hh => (hi j hj) hh.symm)]
      exact hfresh j (List.mem_cons_of_mem _ hj)
    have hres := ih { seen := mapSet st.seen (windowAt text i) 1,
                      duplicates := st.duplicates, total := st.total + 1 } hfresh' hrest
    simp only [List.length_cons]
    constructor
    · exact hres.1
    · rw [hres.2]
      show st.total + 1 + rest.length = st.total + (rest.length + 1)
      omega

/-! ### The probe texts for the 50,000-character line boundary

`probeText n` is a text of `n` characters with no newline at all, whose
sampled windows (at stride 1000) are pairwise distinct: every position
that is a multiple of 1000 carries a distinct marker character, all
other positions carry `'a'`. -/

def probeChar (i : Nat) : Char :=
  if i % 1000 = 0 then Char.ofNat (60 + i / 1000) else 'a'

def probeText (n : Nat) : List Char := (List.range n).map probeChar

theorem probeText_length (n : Nat) : (probeText n).length = n := by
  simp [probeText]

theorem probeText_getElem (n i : Nat) (h : i < (probeText n).length) :
    (probeText n)[i] = probeChar i := by
  simp [probeText]

theorem probeChar_marker (j : Nat) : probeChar (1000 * j) = Char.ofNat (60 + j) := by
  rw [probeChar, if_pos (Nat.mul_mod_right 1000 j), Nat.mul_div_cancel_left j (by norm_num)]

theorem probeChar_ne_newline (i : Nat) (h : i < 51000) : probeChar i ≠ '\n' := by
  rw [probeChar]
  by_cases hm : i % 1000 = 0
  · rw [if_pos hm]
    have hq : i / 1000 < 51 := Nat.div_lt_of_lt_mul (by omega)
    have htab : ∀ q < 51, Char.ofNat (60 + q) ≠ '\n' := by decide
    exact htab _ hq
  · rw [if_neg hm]
    decide

theorem probeText_no_newline (n : Nat) (hn : n ≤ 51000) :
    ∀ c ∈ probeText n, c ≠ '\n' := by
  intro c hc
  simp only [probeText, List.mem_map, List.mem_range] at hc
  obtain ⟨i, hi, rfl⟩ := hc
  exact probeChar_ne_newline i (by omega)

theorem windowAt_head (cs : List Char) (o : Nat) (h : o < cs.length) :
    windowAt cs o = cs[o] :: ((cs.drop (o + 1)).take (WINDOW_SIZE - 1)) := by
  rw [windowAt, List.drop_eq_getElem_cons h]
  rfl

set_option maxRecDepth 40000 in
theorem probe_markers_distinct :
    ∀ j < 50, ∀ k < 50, j ≠ k → Char.ofNat (60 + j) ≠ Char.ofNat (60 + k) := by decide

theorem probe_windows_pairwise (n : Nat) (hn : 49999 < n) :
    ((List.range 50).map (· * 1000)).Pairwise
      (fun i j => windowAt (probeText n) i ≠ windowAt (probeText n) j) := by
  rw [List.pairwise_map]
  refine List.pairwise_iff_getElem.mpr ?_
  intro a b ha hb hab
  simp only [List.length_range] at ha hb
  rw [List.getElem_range, List.getElem_range]
  have hoa : a * 1000 < (probeText n).length := by rw [probeText_length]; omega
  have hob : b * 1000 < (probeText n).length := by rw [probeText_length]; omega
  rw [windowAt_head _ _ hoa, windowAt_head _ _ hob]
  intro hEq
  injection hEq with hheads htail
  rw [probeText_getElem _ _ hoa, probeText_getElem _ _ hob] at hheads
  rw [Nat.mul_comm a 1000, Nat.mul_comm b 1000, probeChar_marker, probeChar_marker] at hheads
  exact probe_markers_distinct a ha b hb (by omega) hheads

theorem dupStats_probe (n : Nat) (h : n = 50000 ∨ n = 50001) :
    (dupStats (probeText n)).duplicates = 0 ∧ (dupStats (probeText n)).total = 50 := by
  have hoffsets : sampleOffsets (strLen (probeText n)) (max 1 (strLen (probeText n) / 50))
      = (List.range 50).map (· * 1000) := by
    rw [strLen_eq, probeText_length]
    rcases h with rfl | rfl
    · simp only [sampleOffsets, WINDOW_SIZE]
      norm_num
    · simp only [sampleOffsets, WINDOW_SIZE]
      norm_num
  rw [dupStats, hoffsets]
  have hn : 49999 < n := by rcases h with rfl | rfl <;> norm_num
  have := dupfree_fold (probeText n) ((List.range 50).map (· * 1000)) ⟨[], 0, 0⟩
    (fun i _ => rfl) (probe_windows_pairwise n hn)
  simpa using this

theorem linesExceed_probe (n : Nat) (hn : n ≤ 51000) :
    linesExceed (probeText n) 50000 = decide (50000 < n) := by
  rw [linesExceed, splitOnNewline_no_newline _ (probeText_no_newline n hn)]
  simp [strLen_eq, probeText_length]

theorem detect_probe (n : Nat) (h : n = 50000 ∨ n = 50001) :
    detectDegenerateRepetition (probeText n) = decide (50000 < n) := by
  have hlen : strLen (probeText n) = n := by rw [strLen_eq, probeText_length]
  have hstats := dupStats_probe n h
  rw [detectDegenerateRepetition, hlen,
    if_neg (by rcases h with rfl | rfl <;> norm_num),
    if_neg (by rw [hstats.1, hstats.2]; norm_num)]
  exact linesExceed_probe n (by rcases h with rfl | rfl <;> norm_num)

/-- A single line of exactly 50,000 characters with pairwise-distinct
sampled windows. -/
def degenProbe : List Char := probeText 50000

/-- A single line of 50,001 characters with pairwise-distinct sampled
windows. -/
def longLineProbe : List Char := probeText 50001

/-- C9 counterexample: `degenProbe` is a text consisting of a single
line of exactly 50,000 characters (so "at least 50,000"), yet
`detectDegenerateRepetition` returns `false` on it: the source's line
check uses the strict comparison `line.length > 50_000`. -/
theorem detectDegenerateRepetition_at_least_50000_refuted :
    splitOnNewline degenProbe = [degenProbe] ∧
    strLen degenProbe = 50000 ∧
    detectDegenerateRepetition degenProbe = false := by
  refine ⟨?_, ?_, ?_⟩
  · rw [degenProbe, splitOnNewline_no_newline _ (probeText_no_newline 50000 (by norm_num))]
  · rw [degenProbe, strLen_eq, probeText_length]
  · rw [degenProbe, detect_probe 50000 (Or.inl rfl)]
    decide

/-- C9 (amended): the detector returns `true` for every text containing
a line of MORE than 50,000 characters, regardless of content. -/
theorem detectDegenerateRepetition_over_50000 (text : List Char)
    (h : ∃ l ∈ splitOnNewline text, 50000 < strLen l) :
    detectDegenerateRepetition text = true := by
  obtain ⟨l, hl, hgt⟩ := h
  have hlines : linesExceed text 50000 = true := by
    rw [linesExceed, List.any_eq_true]
    exact ⟨l, hl, decide_eq_true hgt⟩
  have hlen : 50000 < strLen text := by
    have h2 : l.length ≤ text.length := by
      have := splitOnNewlineAux_length_le text [] l hl
      simpa using this
    rw [strLen_eq] at hgt ⊢
    omega
  rw [detectDegenerateRepetition, if_neg (by omega)]
  by_cases hc : (dupStats text).total > 5 ∧
      5 * (dupStats text).duplicates > 2 * (dupStats text).total
  · rw [if_pos hc]
  · rw [if_neg hc]
    exact hlines

/-- Witness for the amended C9 at the concrete 50,001-character single
line. -/
theorem detectDegenerateRepetition_over_50000_witness :
    detectDegenerateRepetition longLineProbe = true :=
  detectDegenerateRepetition_over_50000 _
    ⟨longLineProbe,
      by
        rw [longLineProbe,
          splitOnNewline_no_newline _ (probeText_no_newline 50001 (by norm_num))]
        simp,
      by
        rw [longLineProbe, strLen_eq, probeText_length]
        norm_num⟩

/-! ## Serialization and token estimation (src/observer.ts, src/storage.ts) -/

/-- One serialized entry line (with emoji by priority and optional
indented children), from `serializeObservations`. -/
def serializeEntry (entry : ObservationEntry) : String :=
  let emoji : String :=
    match entry.priority with
    | .high => "🔴"
    | .medium => "🟡"
    | .low => "🟢"
  let line := "* " ++ emoji ++ " (" ++ entry.time ++ ") " ++ entry.text
  match entry.children with
  | some cs =>
    if cs.length ≠ 0 then
      line ++ "\n" ++ String.intercalate "\n" (cs.map (fun c => "  * -> " ++ c.text))
    else line
  | none => line

/-- One serialized date group: header line plus entry lines. -/
def serializeGroup (group : ObservationGroup) : String :=
  "Date: " ++ group.date ++ "\n" ++ String.intercalate "\n" (group.entries.map serializeEntry)

/-- `serializeObservations` (src/observer.ts): empty input yields `""`,
otherwise the groups joined by blank lines. -/
def serializeObservations (groups : List ObservationGroup) : String :=
  if groups.length = 0 then ""
  else String.intercalate "\n\n" (groups.map serializeGroup)

/-- `estimateTokens` (src/storage.ts): `Math.ceil(text.length / 4)`.
Character counts are code-point counts in this embedding. -/
def estimateTokens (text : String) : Nat := (text.length + 3) / 4

/-- `estimateObservationTokens` (src/storage.ts). -/
def estimateObservationTokens (groups : List ObservationGroup) : Nat :=
  estimateTokens (serializeObservations groups)

/-! ## Compression escalation controller (`runReflector`, src/agents.ts)

The external structured-output capability (`callStructured`) is the
oracle `cap : Nat → String → Option ReflectorRaw`, applied to the
attempt index and the user prompt of that attempt; `none` models a
failed call or missing structured output. Prompt wording is out of
scope (§1); the guidance texts are abbreviated to short, pairwise
distinct constants, with level 0 the empty string exactly as in
`COMPRESSION_GUIDANCE` of src/reflector.ts. -/

def MAX_COMPRESSION_RETRIES : Nat := 3

/-- `COMPRESSION_GUIDANCE` (src/reflector.ts), abbreviated:
level 0 is empty, levels 1 to 3 are distinct non-empty texts. -/
def COMPRESSION_GUIDANCE (level : Nat) : String :=
  match level with
  | 0 => ""
  | 1 => "COMPRESSION REQUIRED: aim for detail level 8 of 10"
  | 2 => "AGGRESSIVE COMPRESSION REQUIRED: aim for detail level 6 of 10"
  | _ => "CRITICAL COMPRESSION REQUIRED: aim for detail level 4 of 10"

/-- `buildReflectorPrompt` (src/reflector.ts, lines 105-126), body text
abbreviated; the compression guidance is appended exactly when it is
non-empty. The unused optional `manualPrompt` parameter is omitted. -/
def buildReflectorPrompt (observations : String) (compressionLevel : Nat) : String :=
  let prompt := "OBSERVATIONS TO REFLECT ON: " ++ observations ++ " --- please condense."
  let guidance := COMPRESSION_GUIDANCE compressionLevel
  if guidance ≠ "" then prompt ++ "\n\n" ++ guidance else prompt

/-- The string JavaScript produces when src/agents.ts passes the
`ObservationGroup[]` value into the string-typed `observations`
parameter of `buildReflectorPrompt`: `Array.prototype.toString` joins
the elements with `","`, each plain object printing as
`"[object Object]"`. -/
def jsArrayToString (gs : List ObservationGroup) : String :=
  String.intercalate "," (gs.map (fun _ => "[object Object]"))

/-- The structured result the capability may deliver for the Reflector
(`{ observations, suggestedResponse? }` per `REFLECTOR_OUTPUT_SCHEMA`). -/
structure ReflectorRaw where
  observations : List ObservationGroup
  suggestedResponse : Option String := none
deriving DecidableEq, Repr

/-- `ReflectorResult` (src/types.ts, structured format). -/
structure ReflectorResult where
  observations : List ObservationGroup
  suggestedResponse : Option String := none
  degenerate : Bool := false
deriving DecidableEq, Repr

/-- The `runReflector` loop (src/agents.ts, lines 100-152). `budget` is
the number of retries left; `budget = 0` is the final attempt
(`level === MAX_COMPRESSION_RETRIES`). Each attempt builds its prompt,
as the source does on line 110, by calling `buildReflectorPrompt` with
only the observations argument — the compression level is left at its
default 0 on every attempt, and the group array is coerced to a string
by the JavaScript runtime (`jsArrayToString`). A `none` or
zero-group result, and a degenerate serialized form, retry (falling
back to the input at the final attempt with the `degenerate` flag); a
result whose estimated size is strictly below `inputTokens` is accepted
immediately, and the final attempt accepts its result even when it is
not smaller. -/
def runReflectorAux (cap : Nat → String → Option ReflectorRaw)
    (observations : List ObservationGroup) (inputTokens : Nat) :
    Nat → ReflectorResult
  | 0 =>
    match cap MAX_COMPRESSION_RETRIES (buildReflectorPrompt (jsArrayToString observations) 0) with
    | none => { observations := observations, degenerate := true }
    | some r =>
      if r.observations.length = 0 then
        { observations := observations, degenerate := true }
      else if detectDegenerateRepetition (serializeObservations r.observations).data then
        { observations := observations, degenerate := true }
      else
        { observations := r.observations, suggestedResponse := r.suggestedResponse }
  | b + 1 =>
    match cap (MAX_COMPRESSION_RETRIES - (b + 1))
        (buildReflectorPrompt (jsArrayToString observations) 0) with
    | none => runReflectorAux cap observations inputTokens b
    | some r =>
      if r.observations.length = 0 then runReflectorAux cap observations inputTokens b
      else if detectDegenerateRepetition (serializeObservations r.observations).data then
        runReflectorAux cap observations inputTokens b
      else if estimateTokens (serializeObservations r.observations) < inputTokens then
        { observations := r.observations, suggestedResponse := r.suggestedResponse }
      else runReflectorAux cap observations inputTokens b

/-- `runReflector` (src/agents.ts): the input size is estimated once
before the loop; the loop makes `MAX_COMPRESSION_RETRIES + 1 = 4`
attempts. The source's `reflectorThreshold` parameter is unused in its
body and omitted here. -/
def runReflector (cap : Nat → String → Option ReflectorRaw)
    (observations : List ObservationGroup) : ReflectorResult :=
  runReflectorAux cap observations
    (estimateTokens (serializeObservations observations)) MAX_COMPRESSION_RETRIES

/-- Total number of entries across all groups ("structurally empty"
means this is zero). -/
def totalEntries (gs : List ObservationGroup) : Nat :=
  (gs.map (fun g => g.entries.length)).sum

/-! ### C7: structural emptiness of the controller output -/

theorem runReflectorAux_ne_nil (cap : Nat → String → Option ReflectorRaw)
    (observations : List ObservationGroup) (inputTokens : Nat) (budget : Nat)
    (h : observations ≠ []) :
    (runReflectorAux cap observations inputTokens budget).observations ≠ [] := by
  induction budget with
  | zero =>
    rw [runReflectorAux]
    cases cap MAX_COMPRESSION_RETRIES (buildReflectorPrompt (jsArrayToString observations) 0) with
    | none => exact h
    | some r =>
      dsimp only
      by_cases h0 : r.observations.length = 0
      · rw [if_pos h0]; exact h
      · rw [if_neg h0]
        by_cases hd : detectDegenerateRepetition (serializeObservations r.observations).data
        · rw [if_pos hd]; exact h
        · rw [if_neg hd]
          intro hnil
          have hre : r.observations = [] := hnil
          exact h0 (by rw [hre]; rfl)
  | succ b ih =>
    rw [runReflectorAux]
    cases cap (MAX_COMPRESSION_RETRIES - (b + 1))
        (buildReflectorPrompt (jsArrayToString observations) 0) with
    | none => exact ih
    | some r =>
      dsimp only
      by_cases h0 : r.observations.length = 0
      · rw [if_pos h0]; exact ih
      · rw [if_neg h0]
        by_cases hd : detectDegenerateRepetition (serializeObservations r.observations).data
        · rw [if_pos hd]; exact ih
        · rw [if_neg hd]
          by_cases hs : estimateTokens (serializeObservations r.observations) < inputTokens
          · rw [if_pos hs]
            intro hnil
            have hre : r.observations = [] := hnil
            exact h0 (by rw [hre]; rfl)
          · rw [if_neg hs]
            exact ih

/-- C7 (amended): for every input observation log containing at least
one entry, `runReflector` never returns a log with zero groups — the
source guards emptiness at group granularity
(`!result.observations?.length`), so the returned log always has at
least one group (or is the original input), though a returned group's
entry list may itself be empty. -/
theorem runReflector_groups_nonempty (cap : Nat → String → Option ReflectorRaw)
    (observations : List ObservationGroup) (h : 0 < totalEntries observations) :
    (runReflector cap observations).observations ≠ [] := by
  have hne : observations ≠ [] := by
    intro hnil
    rw [hnil] at h
    simp [totalEntries] at h
  exact runReflectorAux_ne_nil cap observations _ MAX_COMPRESSION_RETRIES hne

/-- Concrete input log with one entry, for C7. -/
def obs7 : List ObservationGroup :=
  [{ date := "Jan 1, 2026",
     entries := [{ priority := .high, time := "09:00",
                   text := "User chose PostgreSQL for the storage layer" }] }]

/-- A capability answer consisting of one group with zero entries:
non-empty as a group list, structurally empty by entry count. -/
def cap7 : Nat → String → Option ReflectorRaw :=
  fun _ _ => some { observations := [{ date := "Jan 1, 2026", entries := [] }] }

set_option maxRecDepth 40000 in
/-- C7 counterexample: from an input log with one entry, the controller
accepts (at the very first attempt, since the output estimate is
smaller) a result whose groups contain zero entries in total — a
structurally-empty log in the claim's sense. -/
theorem runReflector_structurally_empty_counterexample :
    0 < totalEntries obs7 ∧
    (runReflector cap7 obs7).observations = [{ date := "Jan 1, 2026", entries := [] }] ∧
    totalEntries (runReflector cap7 obs7).observations = 0 := by
  refine ⟨by decide, by decide, by decide⟩

/-- Witness for the amended C7: with a capability that always fails,
the original one-entry log is returned, in particular a non-empty group
list. -/
theorem runReflector_groups_nonempty_witness :
    (runReflector (fun _ _ => none) obs7).observations ≠ [] :=
  runReflector_groups_nonempty _ _ (by decide)

/-! ### C6: the escalation that never happens -/

/-- Concrete input log for C6. -/
def obs6 : List ObservationGroup :=
  [{ date := "Jan 1, 2026",
     entries := [{ priority := .high, time := "09:00",
                   text := "User chose PostgreSQL for the storage layer" }] }]

/-- A non-degenerate condensation result that is NOT smaller than the
input (long entry text). -/
def bigRaw : ReflectorRaw :=
  { observations :=
      [{ date := "Jan 1, 2026",
         entries := [{ priority := .high, time := "09:00",
                       text := String.mk (List.replicate 200 'a') }] }] }

/-- A condensation result strictly smaller than the input. -/
def smallRaw : ReflectorRaw :=
  { observations :=
      [{ date := "Jan 1, 2026",
         entries := [{ priority := .high, time := "09:00", text := "ok" }] }] }

/-- A capability that would return the strictly smaller result if it
were ever sent the level-1 escalation prompt, and the not-smaller
result otherwise. -/
def cap6 : Nat → String → Option ReflectorRaw :=
  fun _ p => if p = buildReflectorPrompt (jsArrayToString obs6) 1 then some smallRaw else some bigRaw

set_option maxRecDepth 40000 in
/-- C6: the controller never escalates the guidance level. The level-1
prompt differs from the level-0 prompt, `bigRaw` is not smaller than
the input while `smallRaw` is, yet with `cap6` the controller runs all
four attempts on the level-0 prompt (the source builds every attempt's
prompt as `buildReflectorPrompt(observations)`, leaving the compression
level at its default 0) and finally accepts the never-smaller `bigRaw`
— the level-1 prompt, which would have produced an accepted smaller
result on the second attempt, is never sent. -/
theorem runReflector_never_escalates :
    buildReflectorPrompt (jsArrayToString obs6) 0 ≠ buildReflectorPrompt (jsArrayToString obs6) 1 ∧
    ¬(estimateTokens (serializeObservations bigRaw.observations)
        < estimateTokens (serializeObservations obs6)) ∧
    estimateTokens (serializeObservations smallRaw.observations)
      < estimateTokens (serializeObservations obs6) ∧
    runReflector cap6 obs6
      = { observations := bigRaw.observations, suggestedResponse := none, degenerate := false } := by
  refine ⟨by decide, by decide, by decide, by decide⟩

/-! ## Live message sequence, Apply Engine, and Worker Coordinator (src/index.ts)

The `experimental.chat.messages.transform` hook for one session is the
pure function `transformTurn` on a `SessionState` (the in-memory
`cache` entry, the `completedObservation` slot, and membership in
`observerInFlight` for that session) together with the live message
list. Background-job completion and failure are separate events
(`completeJob`, `failJob`); the external Observer call's outcome and
`Date.now()` are event parameters. Per-session dispatch, the
child-session guard, logging, and disk persistence are outside the
model. Message indices are `Int` (`lastObservedMessageIndex` starts at
`-1`); `slice`/`splice` follow the JavaScript semantics including
negative-index clamping (`jsSliceFrom`, `jsSpliceStart`).
-/

inductive MsgPart where
  | text (content : String)
  | tool (status : String) (inputJson : Option String) (output : Option String)
  | other
deriving DecidableEq, Repr

structure MsgInfo where
  role : String
  id : String
deriving DecidableEq, Repr

structure Msg where
  info : MsgInfo
  parts : List MsgPart
deriving DecidableEq, Repr

def partChars : MsgPart → Nat
  | .text content => content.length
  | .tool _ inputJson output =>
    (match inputJson with | some s => s.length | none => 0)
      + (match output with | some s => s.length | none => 0)
  | .other => 0

def msgChars (m : Msg) : Nat := (m.parts.map partChars).sum

def estimateMessageTokens (messages : List Msg) : Nat :=
  ((messages.map msgChars).sum + 3) / 4

structure SessionMemory where
  observations : List ObservationGroup
  suggestedResponse : Option String := none
  currentTask : Option String := none
  lastObservedMessageIndex : Int
  lastObservedTokens : Nat
  lastObservedAt : Nat
  lastReflectedAt : Nat
deriving DecidableEq, Repr

def DEFAULT_MEMORY : SessionMemory :=
  { observations := [], lastObservedMessageIndex := -1, lastObservedTokens := 0,
    lastObservedAt := 0, lastReflectedAt := 0 }

structure CompletedObservation where
  memory : SessionMemory
  firstUnobservedIdx : Int
  observedCount : Nat
deriving DecidableEq, Repr

structure JobState where
  baseMemory : SessionMemory
  firstUnobservedIdx : Int
  observedCount : Nat
  unobservedTokens : Nat
deriving DecidableEq, Repr

structure SessionState where
  memory : SessionMemory
  completed : Option CompletedObservation
  inFlight : Option JobState
deriving DecidableEq, Repr

structure Config where
  observerThreshold : Nat
  reflectorThreshold : Nat
  prefetchThreshold : Nat
deriving Repr

def jsSliceFrom (msgs : List Msg) (i : Int) : List Msg :=
  if i < 0 then msgs.drop ((msgs.length : Int) + i).toNat else msgs.drop i.toNat

def jsSpliceStart (len : Nat) (i : Int) : Nat :=
  if i < 0 then ((len : Int) + i).toNat else min i.toNat len

def jsSpliceRemove (msgs : List Msg) (start : Int) (deleteCount : Nat) : List Msg :=
  msgs.take (jsSpliceStart msgs.length start)
    ++ msgs.drop (jsSpliceStart msgs.length start + deleteCount)

def jsSpliceInsert (msgs : List Msg) (start : Int) (x : Msg) : List Msg :=
  msgs.take (jsSpliceStart msgs.length start)
    ++ [x] ++ msgs.drop (jsSpliceStart msgs.length start)

def CONTINUATION_HINT : String :=
  "This message is not from the user. The oldest messages were compressed into your memory observations."

def SYSTEM_REMINDER_OPEN : String := "<system-reminder>\n"

def SYSTEM_REMINDER_CLOSE : String := "\n</system-reminder>"

def RECENT_MESSAGES_DIRECTIVE : String :=
  "\n\nIMPORTANT: Messages follow this reminder that occurred AFTER your memories were captured. These are the CURRENT state of the conversation. Prioritize them over your memory observations."

def STALE_TASK_PREFIX : String :=
  "\n\nPrevious task context (may have changed - check recent messages):\n"

def CURRENT_TASK_PREFIX : String := "\n\nCurrent task:\n"

def SUGGESTED_RESPONSE_PREFIX : String := "\n\nSuggested next response:\n"

def hintParts (memory : SessionMemory) (hasRecentMessages : Bool) : List String :=
  [SYSTEM_REMINDER_OPEN ++ CONTINUATION_HINT]
    ++ (if hasRecentMessages then
          [RECENT_MESSAGES_DIRECTIVE]
            ++ (match memory.currentTask with
                | some t => if t ≠ "" then [STALE_TASK_PREFIX ++ t] else []
                | none => [])
        else
          (match memory.currentTask with
           | some t => if t ≠ "" then [CURRENT_TASK_PREFIX ++ t] else []
           | none => [])
            ++ (match memory.suggestedResponse with
                | some s => if s ≠ "" then [SUGGESTED_RESPONSE_PREFIX ++ s] else []
                | none => []))
    ++ [SYSTEM_REMINDER_CLOSE]

/-- `parts.join("")`: plain concatenation of the pushed parts. -/
def joinParts : List String → String
  | [] => ""
  | [s] => s
  | s :: rest => s ++ joinParts rest

def buildContinuationMessage (memory : SessionMemory) (hasRecentMessages : Bool) : String :=
  joinParts (hintParts memory hasRecentMessages)

def continuationMsg (memory : SessionMemory) (hasRecentMessages : Bool) : Msg :=
  { info := { role := "user", id := "om-continuation-hint" }
    parts := [.text (buildContinuationMessage memory hasRecentMessages)] }

def launchZone (cfg : Config) (st : SessionState) (messages : List Msg)
    (fU : Int) (unobservedCount : Nat) (unobservedTokens : Nat) :
    SessionState × List Msg :=
  if cfg.prefetchThreshold ≤ unobservedTokens ∧ st.inFlight = none ∧ st.completed = none then
    ({ st with inFlight := some ⟨st.memory, fU, unobservedCount, unobservedTokens⟩ }, messages)
  else (st, messages)

def applyCompleted (st : SessionState) (messages : List Msg) (c : CompletedObservation) :
    SessionState × List Msg :=
  let hasRecentMessages :=
    decide (0 < (messages.length : Int) - (c.firstUnobservedIdx + (c.observedCount : Int)))
  let afterRemove := jsSpliceRemove messages c.firstUnobservedIdx c.observedCount
  ({ memory := c.memory, completed := none, inFlight := st.inFlight },
   jsSpliceInsert afterRemove c.firstUnobservedIdx (continuationMsg c.memory hasRecentMessages))

def transformTurn (cfg : Config) (st : SessionState) (messages : List Msg) :
    SessionState × List Msg :=
  let fU : Int := st.memory.lastObservedMessageIndex + 1
  let unobserved := jsSliceFrom messages fU
  let unobservedTokens := estimateMessageTokens unobserved
  match st.completed with
  | some c =>
    if cfg.observerThreshold ≤ unobservedTokens then
      if (messages.length : Int) < c.firstUnobservedIdx + (c.observedCount : Int) then
        launchZone cfg { st with completed := none } messages fU unobserved.length unobservedTokens
      else
        applyCompleted st messages c
    else
      launchZone cfg st messages fU unobserved.length unobservedTokens
  | none => launchZone cfg st messages fU unobserved.length unobservedTokens

structure ObserverResultS where
  observations : List ObservationGroup
  currentTask : Option String := none
  suggestedResponse : Option String := none
  degenerate : Bool := false

/-- The new memory a successful background job assembles
(src/index.ts lines 625-674): merge, bookkeeping update, and the
conditional Reflector pass. -/
def completedMemory (cfg : Config) (j : JobState) (result : ObserverResultS)
    (rcap : Nat → String → Option ReflectorRaw) (now : Nat) : SessionMemory :=
  let newObservations := mergeObservationGroups j.baseMemory.observations result.observations
  let m1 : SessionMemory :=
    { j.baseMemory with
      observations := newObservations
      currentTask := result.currentTask
      suggestedResponse := result.suggestedResponse
      lastObservedMessageIndex := j.firstUnobservedIdx + (j.observedCount : Int) - 1
      lastObservedTokens := j.unobservedTokens
      lastObservedAt := now }
  if cfg.reflectorThreshold ≤ estimateObservationTokens newObservations then
    let reflected := runReflector rcap newObservations
    if reflected.degenerate = false then
      { m1 with
        observations := reflected.observations
        suggestedResponse :=
          match reflected.suggestedResponse with
          | some s => some s
          | none => m1.suggestedResponse
        lastReflectedAt := now }
    else m1
  else m1

/-- Completion of the background job launched by
`startBackgroundObserver`: the skip guard
`result.degenerate || !result.observations` reduces to the degenerate
flag alone, because `runObserver` always returns an array for
`observations` and a JavaScript array is truthy (even when empty); on
success the assembled memory and the captured range are stored as the
pending result. In every case the session leaves the in-flight set
(the `finally` block). -/
def completeJob (cfg : Config) (st : SessionState) (result : ObserverResultS)
    (rcap : Nat → String → Option ReflectorRaw) (now : Nat) : SessionState :=
  match st.inFlight with
  | none => st
  | some j =>
    if result.degenerate then { st with inFlight := none }
    else
      { memory := st.memory
        completed := some
          { memory := completedMemory cfg j result rcap now,
            firstUnobservedIdx := j.firstUnobservedIdx,
            observedCount := j.observedCount }
        inFlight := none }

def failJob (st : SessionState) : SessionState := { st with inFlight := none }

inductive Event where
  | turn (messages : List Msg)
  | complete (result : ObserverResultS) (rcap : Nat → String → Option ReflectorRaw) (now : Nat)
  | fail

def stepState (cfg : Config) (st : SessionState) : Event → SessionState
  | .turn messages => (transformTurn cfg st messages).1
  | .complete result rcap now => completeJob cfg st result rcap now
  | .fail => failJob st

def runEvents (cfg : Config) (st : SessionState) (events : List Event) : SessionState :=
  events.foldl (stepState cfg) st

/-! ## Splice length lemmas -/

theorem jsSpliceStart_le (len : Nat) (i : Int) : jsSpliceStart len i ≤ len := by
  rw [jsSpliceStart]
  split <;> omega

theorem jsSpliceRemove_length_ge (msgs : List Msg) (start : Int) (k : Nat) :
    msgs.length ≤ (jsSpliceRemove msgs start k).length + k := by
  have := jsSpliceStart_le msgs.length start
  simp only [jsSpliceRemove, List.length_append, List.length_take, List.length_drop]
  omega

theorem jsSpliceInsert_length (msgs : List Msg) (start : Int) (x : Msg) :
    (jsSpliceInsert msgs start x).length = msgs.length + 1 := by
  have := jsSpliceStart_le msgs.length start
  simp only [jsSpliceInsert, List.length_append, List.length_take, List.length_drop,
    List.length_singleton]
  omega

/-! ## C1 -/

/-- C1: on every turn with a cached `PendingResult`
(`CompletedObservation`), the Apply Engine never removes more messages
from the live sequence than were present in the captured range
(`messages.length ≤ result.length + observedCount`), and a result whose
captured range end (`firstUnobservedIdx + observedCount`) exceeds the
current live sequence length is never applied: when the primary
threshold is reached it is discarded — live sequence and session memory
left unchanged by the apply step, pending slot cleared — and the turn
falls through to the launch zone with the current sequence. -/
theorem applyEngine_staleness_guard (cfg : Config) (st : SessionState) (messages : List Msg)
    (c : CompletedObservation) (hc : st.completed = some c) :
    messages.length ≤ (transformTurn cfg st messages).2.length + c.observedCount ∧
    ((messages.length : Int) < c.firstUnobservedIdx + (c.observedCount : Int) →
      (transformTurn cfg st messages).2 = messages ∧
      (transformTurn cfg st messages).1.memory = st.memory ∧
      (cfg.observerThreshold
          ≤ estimateMessageTokens (jsSliceFrom messages (st.memory.lastObservedMessageIndex + 1)) →
        (transformTurn cfg st messages).1.completed = none)) := by
  rw [transformTurn, hc]
  dsimp only
  by_cases hthr : cfg.observerThreshold
      ≤ estimateMessageTokens (jsSliceFrom messages (st.memory.lastObservedMessageIndex + 1))
  · rw [if_pos hthr]
    by_cases hstale : (messages.length : Int) < c.firstUnobservedIdx + (c.observedCount : Int)
    · rw [if_pos hstale]
      rw [launchZone]
      split
      · refine ⟨?_, fun _ => ⟨rfl, rfl, fun _ => rfl⟩⟩
        show messages.length ≤ messages.length + c.observedCount
        omega
      · refine ⟨?_, fun _ => ⟨rfl, rfl, fun _ => rfl⟩⟩
        show messages.length ≤ messages.length + c.observedCount
        omega
    · rw [if_neg hstale]
      constructor
      · rw [applyCompleted]
        dsimp only
        rw [jsSpliceInsert_length]
        have h2 := jsSpliceRemove_length_ge messages c.firstUnobservedIdx c.observedCount
        omega
      · intro hstale'
        exact absurd hstale' hstale
  · rw [if_neg hthr]
    rw [launchZone]
    have hguard : ¬(cfg.prefetchThreshold
        ≤ estimateMessageTokens (jsSliceFrom messages (st.memory.lastObservedMessageIndex + 1)) ∧
        st.inFlight = none ∧ st.completed = none) := by
      rintro ⟨-, -, hnone⟩
      rw [hc] at hnone
      exact Option.noConfusion hnone
    rw [if_neg hguard]
    refine ⟨?_, fun _ => ⟨rfl, rfl, fun h => absurd h hthr⟩⟩
    show messages.length ≤ messages.length + c.observedCount
    omega

/-! ## C3 -/

/-- C3: at most one background Observer job per session. If a job is in
flight, a turn never changes the in-flight slot (a second trigger is a
no-op). A new job is launched on a turn only if the unobserved-token
estimate has reached the prefetch threshold, the session was not in the
in-flight set, and no pending result is cached at the launch check
(either none existed this turn, or the one that existed was
stale-discarded at the primary threshold); the job captures the current
memory, slice position, slice length, and token estimate
synchronously. -/
theorem backgroundObserver_single_flight (cfg : Config) (st : SessionState)
    (messages : List Msg) :
    (∀ j, st.inFlight = some j → (transformTurn cfg st messages).1.inFlight = some j) ∧
    (st.inFlight = none → (transformTurn cfg st messages).1.inFlight ≠ none →
       cfg.prefetchThreshold
           ≤ estimateMessageTokens (jsSliceFrom messages (st.memory.lastObservedMessageIndex + 1)) ∧
       (transformTurn cfg st messages).1.inFlight = some
         { baseMemory := st.memory,
           firstUnobservedIdx := st.memory.lastObservedMessageIndex + 1,
           observedCount := (jsSliceFrom messages (st.memory.lastObservedMessageIndex + 1)).length,
           unobservedTokens :=
             estimateMessageTokens (jsSliceFrom messages (st.memory.lastObservedMessageIndex + 1)) } ∧
       (transformTurn cfg st messages).1.completed = none ∧
       (st.completed = none ∨
         ∃ c, st.completed = some c ∧
           cfg.observerThreshold
             ≤ estimateMessageTokens (jsSliceFrom messages (st.memory.lastObservedMessageIndex + 1)) ∧
           (messages.length : Int) < c.firstUnobservedIdx + (c.observedCount : Int))) := by
  cases hc : st.completed with
  | none =>
    rw [transformTurn, hc]
    dsimp only
    rw [launchZone]
    split
    · next hguard =>
      constructor
      · intro j hj
        rw [hj] at hguard
        exact Option.noConfusion hguard.2.1
      · intro _ _
        exact ⟨hguard.1, rfl, hguard.2.2, Or.inl rfl⟩
    · exact ⟨fun j hj => hj, fun h0 hne => absurd h0 hne⟩
  | some c =>
    rw [transformTurn, hc]
    dsimp only
    by_cases hthr : cfg.observerThreshold
        ≤ estimateMessageTokens (jsSliceFrom messages (st.memory.lastObservedMessageIndex + 1))
    · rw [if_pos hthr]
      by_cases hstale : (messages.length : Int) < c.firstUnobservedIdx + (c.observedCount : Int)
      · rw [if_pos hstale]
        rw [launchZone]
        split
        · next hguard =>
          constructor
          · intro j hj
            rw [hj] at hguard
            exact Option.noConfusion hguard.2.1
          · intro _ _
            exact ⟨hguard.1, rfl, rfl, Or.inr ⟨c, rfl, hthr, hstale⟩⟩
        · exact ⟨fun j hj => hj, fun h0 hne => absurd h0 hne⟩
      · rw [if_neg hstale]
        rw [applyCompleted]
        exact ⟨fun j hj => hj, fun h0 hne => absurd h0 hne⟩
    · rw [if_neg hthr]
      rw [launchZone]
      have hguard : ¬(cfg.prefetchThreshold
          ≤ estimateMessageTokens (jsSliceFrom messages (st.memory.lastObservedMessageIndex + 1)) ∧
          st.inFlight = none ∧ st.completed = none) := by
        rintro ⟨-, -, hnone⟩
        rw [hc] at hnone
        exact Option.noConfusion hnone
      rw [if_neg hguard]
      exact ⟨fun j hj => hj, fun h0 hne => absurd h0 hne⟩

/-! ## C2 -/

/-- `needle` occurs as a contiguous substring of `hay`. -/
def occursIn (needle hay : String) : Prop :=
  ∃ pre post : List Char, hay.data = pre ++ needle.data ++ post

theorem jsSpliceStart_eq (len : Nat) (fU : Int) (h0 : 0 ≤ fU) (hle : fU.toNat ≤ len) :
    jsSpliceStart len fU = fU.toNat := by
  rw [jsSpliceStart, if_neg (by omega)]
  exact min_eq_left hle

theorem jsSpliceRemove_eq (msgs : List Msg) (fU : Int) (k : Nat)
    (h0 : 0 ≤ fU) (hfit : fU + (k : Int) ≤ (msgs.length : Int)) :
    jsSpliceRemove msgs fU k = msgs.take fU.toNat ++ msgs.drop (fU.toNat + k) := by
  rw [jsSpliceRemove, jsSpliceStart_eq _ _ h0 (by omega)]

theorem jsSpliceInsert_eq (msgs : List Msg) (fU : Int) (x : Msg)
    (h0 : 0 ≤ fU) (hle : fU.toNat ≤ msgs.length) :
    jsSpliceInsert msgs fU x = msgs.take fU.toNat ++ [x] ++ msgs.drop fU.toNat := by
  rw [jsSpliceInsert, jsSpliceStart_eq _ _ h0 hle]

/-- C2: when a valid pending result is applied (one exists, the primary
threshold is reached, and the captured range fits the current
sequence), the Apply Engine adopts the result's memory, clears the
pending slot, removes exactly the captured range (`observedCount`
messages starting at `firstUnobservedIdx`), and inserts exactly one
continuity message at the removal point. The continuity message: when
messages exist beyond the captured range (`hasRecentMessages`), its
text never depends on `suggestedResponse` (omitted entirely) and
consists of the reminder, the recent-messages directive, and the
current task prefixed by the possibly-stale marker; otherwise it
carries both the current task and the suggested response when
present. -/
theorem applyEngine_apply_spec (cfg : Config) (st : SessionState) (messages : List Msg)
    (c : CompletedObservation) (hc : st.completed = some c)
    (h0 : 0 ≤ c.firstUnobservedIdx)
    (hfit : c.firstUnobservedIdx + (c.observedCount : Int) ≤ (messages.length : Int))
    (hthr : cfg.observerThreshold
      ≤ estimateMessageTokens (jsSliceFrom messages (st.memory.lastObservedMessageIndex + 1))) :
    (transformTurn cfg st messages).1.memory = c.memory ∧
    (transformTurn cfg st messages).1.completed = none ∧
    (transformTurn cfg st messages).2
      = messages.take c.firstUnobservedIdx.toNat
        ++ [continuationMsg c.memory
              (decide (c.firstUnobservedIdx + (c.observedCount : Int) < (messages.length : Int)))]
        ++ messages.drop (c.firstUnobservedIdx.toNat + c.observedCount) ∧
    (∀ m : SessionMemory, ∀ sr₁ sr₂ : Option String,
       buildContinuationMessage { m with suggestedResponse := sr₁ } true
         = buildContinuationMessage { m with suggestedResponse := sr₂ } true) ∧
    (∀ m : SessionMemory, ∀ t, m.currentTask = some t → t ≠ "" →
       buildContinuationMessage m true
         = (SYSTEM_REMINDER_OPEN ++ CONTINUATION_HINT)
           ++ (RECENT_MESSAGES_DIRECTIVE
             ++ ((STALE_TASK_PREFIX ++ t) ++ SYSTEM_REMINDER_CLOSE))) ∧
    (∀ m : SessionMemory, ∀ t s', m.currentTask = some t → t ≠ "" →
       m.suggestedResponse = some s' → s' ≠ "" →
       buildContinuationMessage m false
         = (SYSTEM_REMINDER_OPEN ++ CONTINUATION_HINT)
           ++ ((CURRENT_TASK_PREFIX ++ t)
             ++ ((SUGGESTED_RESPONSE_PREFIX ++ s') ++ SYSTEM_REMINDER_CLOSE))) := by
  have hstale : ¬((messages.length : Int) < c.firstUnobservedIdx + (c.observedCount : Int)) := by
    omega
  rw [transformTurn, hc]
  dsimp only
  rw [if_pos hthr, if_neg hstale, applyCompleted]
  dsimp only
  refine ⟨rfl, rfl, ?_, ?_, ?_, ?_⟩
  · have hdec : decide (0 < (messages.length : Int)
          - (c.firstUnobservedIdx + (c.observedCount : Int)))
        = decide (c.firstUnobservedIdx + (c.observedCount : Int) < (messages.length : Int)) := by
      rw [decide_eq_decide]
      omega
    rw [hdec, jsSpliceRemove_eq _ _ _ h0 hfit]
    have hlen1 : (messages.take c.firstUnobservedIdx.toNat
        ++ messages.drop (c.firstUnobservedIdx.toNat + c.observedCount)).length
        = messages.length - c.observedCount := by
      simp only [List.length_append, List.length_take, List.length_drop]
      omega
    rw [jsSpliceInsert_eq _ _ _ h0 (by rw [hlen1]; omega)]
    have htake : (messages.take c.firstUnobservedIdx.toNat).length
        = c.firstUnobservedIdx.toNat := by
      rw [List.length_take]
      omega
    rw [List.take_left' htake, List.drop_left' htake]
  · intro m sr₁ sr₂
    rfl
  · intro m t hcur ht
    simp [buildContinuationMessage, hintParts, joinParts, hcur, ht]
  · intro m t s' hcur ht hsug hs
    simp [buildContinuationMessage, hintParts, joinParts, hcur, ht, hsug, hs]

/-! ## C8 -/

/-- The cross-event invariant. -/
def Inv (st : SessionState) : Prop :=
  (∀ j, st.inFlight = some j →
     st.completed = none ∧ j.baseMemory = st.memory ∧
     j.firstUnobservedIdx = st.memory.lastObservedMessageIndex + 1) ∧
  (∀ c, st.completed = some c →
     st.memory.lastObservedMessageIndex ≤ c.memory.lastObservedMessageIndex)

theorem completedMemory_lastObservedMessageIndex (cfg : Config) (j : JobState)
    (result : ObserverResultS) (rcap : Nat → String → Option ReflectorRaw) (now : Nat) :
    (completedMemory cfg j result rcap now).lastObservedMessageIndex
      = j.firstUnobservedIdx + (j.observedCount : Int) - 1 := by
  rw [completedMemory]
  dsimp only
  split
  · split <;> rfl
  · rfl

theorem stepState_mono (cfg : Config) (st : SessionState) (ev : Event) (hInv : Inv st) :
    st.memory.lastObservedMessageIndex ≤ (stepState cfg st ev).memory.lastObservedMessageIndex ∧
    Inv (stepState cfg st ev) := by
  obtain ⟨hFlight, hComp⟩ := hInv
  cases ev with
  | fail =>
    refine ⟨le_refl _, ?_, ?_⟩
    · intro j hj
      exact Option.noConfusion hj
    · intro c hcc
      exact hComp c hcc
  | complete result rcap now =>
    rw [stepState, completeJob]
    cases hf : st.inFlight with
    | none =>
      exact ⟨le_refl _, hFlight, hComp⟩
    | some j =>
      dsimp only
      obtain ⟨hcnone, hbase, hidx⟩ := hFlight j hf
      by_cases hdeg : result.degenerate
      · rw [if_pos hdeg]
        refine ⟨le_refl _, ?_, ?_⟩
        · intro j' hj'
          exact Option.noConfusion hj'
        · intro c hcc
          exact hComp c hcc
      · rw [if_neg hdeg]
        refine ⟨le_refl _, ?_, ?_⟩
        · intro j' hj'
          exact Option.noConfusion hj'
        · intro c hcc
          injection hcc with hcc
          subst hcc
          dsimp only
          rw [completedMemory_lastObservedMessageIndex, hidx]
          omega
  | turn messages =>
    rw [stepState]
    cases hc : st.completed with
    | none =>
      rw [transformTurn, hc]
      dsimp only
      rw [launchZone]
      split
      · next hguard =>
        refine ⟨le_refl _, ?_, ?_⟩
        · intro j' hj'
          injection hj' with hj'
          subst hj'
          exact ⟨hguard.2.2, rfl, rfl⟩
        · intro c hcc
          have hcc' : st.completed = some c := hcc
          rw [hguard.2.2] at hcc'
          exact Option.noConfusion hcc'
      · refine ⟨le_refl _, hFlight, hComp⟩
    | some c =>
      have hle := hComp c hc
      rw [transformTurn, hc]
      dsimp only
      by_cases hthr : cfg.observerThreshold
          ≤ estimateMessageTokens (jsSliceFrom messages (st.memory.lastObservedMessageIndex + 1))
      · rw [if_pos hthr]
        by_cases hstale : (messages.length : Int) < c.firstUnobservedIdx + (c.observedCount : Int)
        · rw [if_pos hstale]
          rw [launchZone]
          split
          · next hguard =>
            refine ⟨le_refl _, ?_, ?_⟩
            · intro j' hj'
              injection hj' with hj'
              subst hj'
              exact ⟨rfl, rfl, rfl⟩
            · intro c' hcc'
              exact Option.noConfusion hcc'
          · refine ⟨le_refl _, ?_, ?_⟩
            · intro j' hj'
              obtain ⟨hn, -, -⟩ := hFlight j' hj'
              rw [hc] at hn
              exact Option.noConfusion hn
            · intro c' hcc'
              exact Option.noConfusion hcc'
        · rw [if_neg hstale, applyCompleted]
          dsimp only
          refine ⟨hle, ?_, ?_⟩
          · intro j' hj'
            obtain ⟨hn, -, -⟩ := hFlight j' hj'
            rw [hc] at hn
            exact Option.noConfusion hn
          · intro c' hcc'
            exact Option.noConfusion hcc'
      · rw [if_neg hthr]
        rw [launchZone]
        have hguard : ¬(cfg.prefetchThreshold
            ≤ estimateMessageTokens (jsSliceFrom messages (st.memory.lastObservedMessageIndex + 1)) ∧
            st.inFlight = none ∧ st.completed = none) := by
          rintro ⟨-, -, hnone⟩
          rw [hc] at hnone
          exact Option.noConfusion hnone
        rw [if_neg hguard]
        exact ⟨le_refl _, hFlight, hComp⟩

/-- C8: for a fixed session, across any sequence of events — turns,
background-job completions (with any Observer outcome and any Reflector
capability), and failures — starting from a state satisfying the
invariant (in particular the initial state), the session memory's
`lastObservedMessageIndex` is monotonically non-decreasing. -/
theorem lastObservedMessageIndex_monotone (cfg : Config) (events : List Event)
    (st : SessionState) (hInv : Inv st) :
    st.memory.lastObservedMessageIndex
      ≤ (runEvents cfg st events).memory.lastObservedMessageIndex := by
  induction events generalizing st with
  | nil => exact le_refl _
  | cons ev rest ih =>
    have h := stepState_mono cfg st ev hInv
    calc st.memory.lastObservedMessageIndex
        ≤ (stepState cfg st ev).memory.lastObservedMessageIndex := h.1
      _ ≤ (runEvents cfg (stepState cfg st ev) rest).memory.lastObservedMessageIndex :=
          ih (stepState cfg st ev) h.2


/-! ### Concrete witnesses for the Apply Engine / Coordinator claims -/

/-- A plain one-part text message. -/
def mkTextMsg (id : String) (content : String) : Msg :=
  { info := { role := "user", id := id }, parts := [.text content] }

/-- Small thresholds so one short message crosses them. -/
def cfg0 : Config :=
  { observerThreshold := 1, reflectorThreshold := 10, prefetchThreshold := 1 }

def msgs1 : List Msg := [mkTextMsg "m1" "hello world"]

/-- A pending result whose captured range (0, 5) exceeds `msgs1`. -/
def cStale : CompletedObservation :=
  { memory := DEFAULT_MEMORY, firstUnobservedIdx := 0, observedCount := 5 }

def stStale : SessionState :=
  { memory := DEFAULT_MEMORY, completed := some cStale, inFlight := none }

/-- Witness for C1 at a concrete stale state: the turn leaves the
sequence and the memory unchanged and discards the pending result. -/
theorem applyEngine_staleness_guard_witness :
    (transformTurn cfg0 stStale msgs1).2 = msgs1 ∧
    (transformTurn cfg0 stStale msgs1).1.memory = stStale.memory ∧
    (transformTurn cfg0 stStale msgs1).1.completed = none :=
  have h := applyEngine_staleness_guard cfg0 stStale msgs1 cStale rfl
  ⟨(h.2 (by decide)).1, (h.2 (by decide)).2.1, (h.2 (by decide)).2.2 (by decide)⟩

/-- The memory carried by the valid pending result of the C2 witness. -/
def memApplied : SessionMemory :=
  { observations := []
    suggestedResponse := some "Continue with the fix"
    currentTask := some "Fix the bug"
    lastObservedMessageIndex := 0
    lastObservedTokens := 3
    lastObservedAt := 1
    lastReflectedAt := 0 }

/-- A pending result whose captured range (0, 1) exactly covers `msgs1`. -/
def cFits : CompletedObservation :=
  { memory := memApplied, firstUnobservedIdx := 0, observedCount := 1 }

def stFits : SessionState :=
  { memory := DEFAULT_MEMORY, completed := some cFits, inFlight := none }

/-- Witness for C2 at a concrete valid state: the memory is adopted and
the captured range is replaced by the single continuity message. -/
theorem applyEngine_apply_spec_witness :
    (transformTurn cfg0 stFits msgs1).1.memory = cFits.memory ∧
    (transformTurn cfg0 stFits msgs1).1.completed = none ∧
    (transformTurn cfg0 stFits msgs1).2
      = msgs1.take 0 ++ [continuationMsg cFits.memory false] ++ msgs1.drop (0 + 1) :=
  have h := applyEngine_apply_spec cfg0 stFits msgs1 cFits rfl (by decide) (by decide) (by decide)
  ⟨h.1, h.2.1, h.2.2.1⟩

def stIdle : SessionState :=
  { memory := DEFAULT_MEMORY, completed := none, inFlight := none }

/-- Witness for C3: at a concrete idle state above the prefetch
threshold, the launched job captures exactly the current memory, slice
position, slice length, and token estimate; no pending result exists. -/
theorem backgroundObserver_single_flight_witness :
    cfg0.prefetchThreshold
        ≤ estimateMessageTokens (jsSliceFrom msgs1 (stIdle.memory.lastObservedMessageIndex + 1)) ∧
    (transformTurn cfg0 stIdle msgs1).1.inFlight = some
      { baseMemory := stIdle.memory,
        firstUnobservedIdx := stIdle.memory.lastObservedMessageIndex + 1,
        observedCount := (jsSliceFrom msgs1 (stIdle.memory.lastObservedMessageIndex + 1)).length,
        unobservedTokens :=
          estimateMessageTokens (jsSliceFrom msgs1 (stIdle.memory.lastObservedMessageIndex + 1)) } ∧
    (transformTurn cfg0 stIdle msgs1).1.completed = none ∧
    (stIdle.completed = none ∨
      ∃ c, stIdle.completed = some c ∧
        cfg0.observerThreshold
          ≤ estimateMessageTokens (jsSliceFrom msgs1 (stIdle.memory.lastObservedMessageIndex + 1)) ∧
        (msgs1.length : Int) < c.firstUnobservedIdx + (c.observedCount : Int)) :=
  (backgroundObserver_single_flight cfg0 stIdle msgs1).2 rfl (by decide)

/-- A short event trace: a turn that launches a job, its completion,
and another turn. -/
def demoEvents : List Event :=
  [Event.turn msgs1,
   Event.complete { observations := [] } (fun _ _ => none) 5,
   Event.turn msgs1]

/-- Witness for C8 on a concrete trace from the initial state. -/
theorem lastObservedMessageIndex_monotone_witness :
    stIdle.memory.lastObservedMessageIndex
      ≤ (runEvents cfg0 stIdle demoEvents).memory.lastObservedMessageIndex :=
  lastObservedMessageIndex_monotone cfg0 demoEvents stIdle
    ⟨fun _ hj => Option.noConfusion hj, fun _ hc => Option.noConfusion hc⟩

end ObsMemory
